import Mathlib

/-!
Shallow embedding of the `easy_signals` dispatch core (src/src/lib.rs).

Observers are referenced by identity (`Rc::ptr_eq`), so we model an observer
reference as a natural-number identity `Obs`.  Events are shared immutable
payloads passed by reference; a dispatch hands the very same `Rc<dyn Event>`
clone to every recipient, so an event is modelled as an identity `Event` and
"invoking `process_signal`" is recorded in a `Trace`: the list of
`(observer, event)` invocations in the order the code performs them.
-/

namespace EasySignals

/-- Identity of an observer reference (`Rc<RefCell<dyn SignalObserver>>`,
compared with `Rc::ptr_eq`). -/
abbrev Obs := Nat

/-- Identity of a shared event payload (`Rc<dyn Event>`); cloning the `Rc`
yields the same identity. -/
abbrev Event := Nat

/-- The sequence of `process_signal(observer, event)` invocations performed by
an operation, in call order. -/
abbrev Trace := List (Obs × Event)

/-- `SignalSubject::copy_observers`: builds a fresh vector and pushes a clone
of each observer reference in iteration order. -/
def copy_observers (subs : List Obs) : List Obs :=
  subs.foldl (fun copy o => copy ++ [o]) []

/-- `SignalSubject::send_signal`: iterates the subject's observer sequence and
calls `process_signal(event.clone())` on each entry in order. -/
def send_signal (subs : List Obs) (event : Event) : Trace :=
  subs.map (fun o => (o, event))

/-- `SignalSubject::send_signal_to`: the `send_signal` pass over the subject's
own sequence, followed by a `process_signal(event.clone())` call on every
entry of `targets`, in `targets` order. -/
def send_signal_to (subs : List Obs) (event : Event) (targets : List Obs) : Trace :=
  subs.map (fun o => (o, event)) ++ targets.map (fun o => (o, event))

/-- `SignalSnapShot`: an event paired with its own observer vector. -/
structure SignalSnapShot where
  event : Event
  subs : List Obs
deriving DecidableEq, Repr

/-- `SignalSubject::get_signal_snapshot`: constructs a `SignalSnapShot` from
the event and `copy_observers()`.  The body contains no `process_signal`
call, so the operation's trace is empty. -/
def get_signal_snapshot (subs : List Obs) (event : Event) : SignalSnapShot × Trace :=
  ({ event := event, subs := copy_observers subs }, [])

/-- `SignalSubject::get_signal_to_snapshot`: `copy_observers()` with a clone of
`targets` appended, paired with the event.  No `process_signal` call occurs,
so the trace is empty. -/
def get_signal_to_snapshot (subs : List Obs) (event : Event) (targets : List Obs) :
    SignalSnapShot × Trace :=
  ({ event := event, subs := copy_observers subs ++ targets }, [])

/-- `subscribe_observer` from `implement_signal_subject!`: `retain` keeps the
entries that are not `Rc::ptr_eq` to the new observer, then `push` appends the
new observer at the end. -/
def subscribe_observer (subs : List Obs) (new_observer : Obs) : List Obs :=
  (subs.filter (fun x => !(x == new_observer))) ++ [new_observer]

/-- `SignalSnapShot::execute`: `self.send_signal(self.event.clone())`. -/
def SignalSnapShot.execute (s : SignalSnapShot) : Trace :=
  send_signal s.subs s.event

/-- The snapshot's `subscribe_observer`, obtained from
`implement_signal_subject!(SignalSnapShot, subs)`. -/
def SignalSnapShot.subscribe_observer (s : SignalSnapShot) (new_observer : Obs) :
    SignalSnapShot :=
  { s with subs := EasySignals.subscribe_observer s.subs new_observer }

/-- `SignalQueue`: a `VecDeque<SignalSnapShot>`, front at the list head. -/
abbrev SignalQueue := List SignalSnapShot

/-- `SignalQueue::push`: `push_back`, appending at the tail. -/
def SignalQueue.push (q : SignalQueue) (signal : SignalSnapShot) : SignalQueue :=
  q ++ [signal]

/-- `SignalQueue::pop`: `pop_front`, removing and returning the head. -/
def SignalQueue.pop (q : SignalQueue) : Option SignalSnapShot × SignalQueue :=
  match q with
  | [] => (none, [])
  | s :: rest => (some s, rest)

/-- `SignalQueue::next_signal`: pops; on `Some s` calls `s.execute()` and
returns `Some s`, otherwise returns `None`.  The result is the returned
option, the queue state after the call, and the trace of the call. -/
def SignalQueue.next_signal (q : SignalQueue) : Option SignalSnapShot × SignalQueue × Trace :=
  match SignalQueue.pop q with
  | (some s, rest) => (some s, rest, s.execute)
  | (none, rest) => (none, rest, [])

/-- A host-side operation on a queue: push a snapshot, or pump once. -/
inductive QueueOp where
  | push (s : SignalSnapShot)
  | next
deriving DecidableEq, Repr

/-- Runs a list of host operations against a queue.  Returns the final queue,
the snapshots pushed (in push order), and the snapshots executed by
`next_signal` (in execution order). -/
def runQueue (q : SignalQueue) :
    List QueueOp → SignalQueue × List SignalSnapShot × List SignalSnapShot
  | [] => (q, [], [])
  | QueueOp.push s :: ops =>
      let r := runQueue (SignalQueue.push q s) ops
      (r.1, s :: r.2.1, r.2.2)
  | QueueOp.next :: ops =>
      match SignalQueue.next_signal q with
      | (some s, q', _) =>
          let r := runQueue q' ops
          (r.1, r.2.1, s :: r.2.2)
      | (none, q', _) => runQueue q' ops

/-- `copy_observers` returns the observer sequence itself (a shallow copy:
same entries, same order). -/
theorem copy_observers_eq (subs : List Obs) : copy_observers subs = subs := by
  suffices h : ∀ (l acc : List Obs), l.foldl (fun copy o => copy ++ [o]) acc = acc ++ l by
    simpa [copy_observers] using h subs []
  intro l
  induction l with
  | nil => simp
  | cons x xs ih => intro acc; simp [List.foldl_cons, ih]

/-- Projecting the observers out of a mapped trace returns the sequence. -/
theorem map_fst_pair (l : List Obs) (e : Event) :
    (l.map (fun x => (x, e))).map Prod.fst = l := by
  induction l <;> simp_all

/-- Counting invocations of a fixed observer with a fixed event in a mapped
trace counts the observer's occurrences in the sequence. -/
theorem count_map_pair (l : List Obs) (e : Event) (o : Obs) :
    (l.map (fun x => (x, e))).count (o, e) = l.count o := by
  induction l with
  | nil => rfl
  | cons x xs ih =>
      by_cases hx : x = o <;>
        simp [List.count_cons, ih, hx, Prod.ext_iff]

/-- Claim C1: `send_signal(e)` on a subject with observer sequence `subs`
invokes `process_signal` once per sequence entry, in sequence order, on no
other observer, passing the same shared event `e` to every recipient: the
trace's observers are exactly the sequence in order, every trace entry
carries `e`, and each observer is invoked as many times as it occurs in the
sequence (so exactly once per entry). -/
theorem send_signal_delivers_in_order (subs : List Obs) (e : Event) :
    (send_signal subs e).map Prod.fst = subs ∧
    (∀ p ∈ send_signal subs e, p.2 = e) ∧
    (∀ o : Obs, (send_signal subs e).count (o, e) = subs.count o) := by
  refine ⟨?_, ?_, ?_⟩
  · exact map_fst_pair subs e
  · intro p hp
    simp [send_signal] at hp
    obtain ⟨o, _, rfl⟩ := hp
    rfl
  · intro o
    exact count_map_pair subs e o

/-- Claim C4: `send_signal_to(e, targets)` performs the full `send_signal`
pass over the subject's own sequence and then delivers the same event to
every target in `targets` order; no de-duplication happens between the two
lists, so an observer in both lists is invoked at least twice. -/
theorem send_signal_to_appends_targets (l : List Obs) (e : Event) (ts : List Obs) (o : Obs) :
    send_signal_to l e ts = send_signal l e ++ send_signal ts e ∧
    (send_signal_to l e ts).map Prod.fst = l ++ ts ∧
    (send_signal_to l e ts).count (o, e) = l.count o + ts.count o ∧
    (o ∈ l → o ∈ ts → 2 ≤ (send_signal_to l e ts).count (o, e)) := by
  have hcount : (send_signal_to l e ts).count (o, e) = l.count o + ts.count o := by
    simp [send_signal_to, List.count_append, count_map_pair]
  refine ⟨rfl, ?_, hcount, ?_⟩
  · have h : send_signal_to l e ts = l.map (fun x => (x, e)) ++ ts.map (fun x => (x, e)) := rfl
    rw [h, List.map_append, map_fst_pair, map_fst_pair]
  · intro hl ht
    have h1 : 0 < l.count o := List.count_pos_iff.mpr hl
    have h2 : 0 < ts.count o := List.count_pos_iff.mpr ht
    omega

/-- Witness for claim C4 at subject sequence `[1, 2]`, event `7` and target
list `[1]`: observer `1` is in both lists and receives the event twice. -/
theorem send_signal_to_appends_targets_witness :
    (1 : Obs) ∈ ([1, 2] : List Obs) ∧ (1 : Obs) ∈ ([1] : List Obs) ∧
    2 ≤ (send_signal_to [1, 2] 7 [1]).count (1, 7) :=
  ⟨by decide, by decide,
    (send_signal_to_appends_targets [1, 2] 7 [1] 1).2.2.2 (by decide) (by decide)⟩

/-- Claim C7: `get_signal_to_snapshot(e, targets)` dispatches nothing (its
trace is empty) and returns a snapshot whose observer list is the copy of the
subject's sequence with `targets` appended after it, in order, with no
de-duplication between the two parts. -/
theorem get_signal_to_snapshot_no_dispatch (l : List Obs) (e : Event) (ts : List Obs) :
    (get_signal_to_snapshot l e ts).2 = [] ∧
    (get_signal_to_snapshot l e ts).1.subs = l ++ ts ∧
    (get_signal_to_snapshot l e ts).1.event = e := by
  refine ⟨rfl, ?_, rfl⟩
  simp [get_signal_to_snapshot, copy_observers_eq]

/-- Claim C10: capturing a snapshot with `get_signal_snapshot(e)` and
immediately executing it performs exactly the same invocation sequence (same
observers, same order, same shared event) as `send_signal(e)` on the subject
directly. -/
theorem snapshot_execute_refines_send_signal (l : List Obs) (e : Event) :
    SignalSnapShot.execute (get_signal_snapshot l e).1 = send_signal l e := by
  simp [SignalSnapShot.execute, get_signal_snapshot, copy_observers_eq]

/-- Claim C2: `subscribe_observer(obs)` removes any identity-equal entry and
appends `obs` at the end, on subjects and snapshots alike: subscribing twice
equals subscribing once, the result holds exactly one entry for `obs`,
positioned last, the entries other than `obs` keep their relative order, and
the snapshot operation acts on its observer list the same way. -/
theorem subscribe_observer_move_to_end (l : List Obs) (o : Obs) (s : SignalSnapShot) :
    subscribe_observer (subscribe_observer l o) o = subscribe_observer l o ∧
    (subscribe_observer l o).count o = 1 ∧
    (subscribe_observer l o).getLast? = some o ∧
    (subscribe_observer l o).filter (fun x => !(x == o)) = l.filter (fun x => !(x == o)) ∧
    (s.subscribe_observer o).subs = subscribe_observer s.subs o := by
  have hfix : (subscribe_observer l o).filter (fun x => !(x == o)) =
      l.filter (fun x => !(x == o)) := by
    simp [subscribe_observer, List.filter_append, List.filter_filter]
  refine ⟨?_, ?_, ?_, hfix, rfl⟩
  · calc subscribe_observer (subscribe_observer l o) o
        = (subscribe_observer l o).filter (fun x => !(x == o)) ++ [o] := rfl
      _ = l.filter (fun x => !(x == o)) ++ [o] := by rw [hfix]
      _ = subscribe_observer l o := rfl
  · have hzero : (l.filter (fun x => !(x == o))).count o = 0 := by
      rw [List.count_eq_zero]
      simp
    simp [subscribe_observer, List.count_append, hzero]
  · simp [subscribe_observer]

/-- Claim C3: `get_signal_snapshot(e)` invokes no observer (its trace is
empty) and captures a shallow copy of the current sequence, in order, paired
with `e`; the captured snapshot is a value independent of the subject, so a
later subscription on the subject leaves the snapshot's list unchanged, and
executing the snapshot reaches only the observers present at capture time:
an observer `c` outside the capture-time sequence is never invoked. -/
theorem get_signal_snapshot_captures_copy (l : List Obs) (e : Event) (c : Obs) :
    (get_signal_snapshot l e).2 = [] ∧
    (get_signal_snapshot l e).1.subs = l ∧
    (get_signal_snapshot l e).1.event = e ∧
    SignalSnapShot.execute (get_signal_snapshot l e).1 = send_signal l e ∧
    (c ∉ l →
      ((get_signal_snapshot l e).1.execute).all (fun p => !(p.1 == c)) = true) := by
  refine ⟨rfl, by simp [get_signal_snapshot, copy_observers_eq], rfl,
    by simp [SignalSnapShot.execute, get_signal_snapshot, copy_observers_eq], ?_⟩
  intro hc
  simp [SignalSnapShot.execute, get_signal_snapshot, copy_observers_eq, send_signal,
    List.all_eq_true]
  intro x hx hxc
  exact hc (hxc ▸ hx)

/-- Witness for claim C3: observer `3` is outside the capture-time sequence
`[1, 2]`, so executing the snapshot captured there never invokes it. -/
theorem get_signal_snapshot_captures_copy_witness :
    (3 : Obs) ∉ ([1, 2] : List Obs) ∧
    ((get_signal_snapshot [1, 2] 5).1.execute).all (fun p => !(p.1 == 3)) = true :=
  ⟨by decide, (get_signal_snapshot_captures_copy [1, 2] 5 3).2.2.2.2 (by decide)⟩

/-- Claim C5: `next_signal()` on an empty queue returns `None`, performs no
dispatch and leaves the queue empty; on a non-empty queue it removes the head
snapshot, executes it (producing exactly that snapshot's dispatch trace) and
returns it. -/
theorem next_signal_pump (s : SignalSnapShot) (rest : SignalQueue) :
    SignalQueue.next_signal ([] : SignalQueue) = (none, ([] : SignalQueue), ([] : Trace)) ∧
    SignalQueue.next_signal (s :: rest) = (some s, rest, s.execute) ∧
    s.execute = send_signal s.subs s.event := by
  exact ⟨rfl, rfl, rfl⟩

/-- Running any operation sequence satisfies: executed snapshots followed by
the remaining queue equal the initial queue followed by the pushed snapshots. -/
theorem runQueue_exec_append (ops : List QueueOp) : ∀ q : SignalQueue,
    (runQueue q ops).2.2 ++ (runQueue q ops).1 = q ++ (runQueue q ops).2.1 := by
  induction ops with
  | nil => intro q; simp [runQueue]
  | cons op ops ih =>
      intro q
      cases op with
      | push s =>
          have h := ih (SignalQueue.push q s)
          simp only [runQueue] at h ⊢
          rw [h]
          simp [SignalQueue.push]
      | next =>
          cases q with
          | nil =>
              have h := ih []
              simp only [runQueue, SignalQueue.next_signal, SignalQueue.pop] at h ⊢
              simpa using h
          | cons s rest =>
              have h := ih rest
              simp only [runQueue, SignalQueue.next_signal, SignalQueue.pop] at h ⊢
              simp [h]

/-- Claim C6: the queue is strictly FIFO. For every operation sequence run
from the empty queue, the list of snapshots executed by `next_signal` (in
execution order) is a prefix of the list of pushed snapshots (in push order),
so nothing is executed out of push order; in particular pushing `s1` then
`s2` and pumping twice executes `s1` then `s2`. -/
theorem queue_fifo (ops : List QueueOp) (s1 s2 : SignalSnapShot) :
    (∃ rest, (runQueue [] ops).2.1 = (runQueue [] ops).2.2 ++ rest) ∧
    (runQueue []
      [QueueOp.push s1, QueueOp.push s2, QueueOp.next, QueueOp.next]).2.2 = [s1, s2] := by
  constructor
  · exact ⟨(runQueue [] ops).1, ((runQueue_exec_append ops []).symm).trans rfl⟩
  · rfl

/-- Subject observer sequences built from the empty sequence by subscriptions
only. -/
inductive ReachableSubs : List Obs → Prop where
  | empty : ReachableSubs []
  | subscribe (l : List Obs) (o : Obs) :
      ReachableSubs l → ReachableSubs (subscribe_observer l o)

/-- `subscribe_observer` preserves duplicate-freedom of the sequence. -/
theorem subscribe_observer_nodup (l : List Obs) (o : Obs) (h : l.Nodup) :
    (subscribe_observer l o).Nodup := by
  rw [subscribe_observer, List.nodup_append]
  refine ⟨h.filter _, List.nodup_singleton o, ?_⟩
  intro x hx hx1
  simp at hx1
  subst hx1
  simp at hx

/-- Claim C8: a subject sequence built from empty using only
`subscribe_observer` never holds two entries with the same observer identity,
and the operations preserve this: `subscribe_observer` keeps the sequence
duplicate-free, the dispatch operations leave it untouched, and the snapshot
captured by `get_signal_snapshot` inherits the duplicate-free sequence. -/
theorem subject_sequence_nodup (l : List Obs) (o : Obs) (e : Event) :
    (ReachableSubs l → l.Nodup) ∧
    (l.Nodup → (subscribe_observer l o).Nodup) ∧
    (l.Nodup → ((get_signal_snapshot l e).1.subs).Nodup) := by
  refine ⟨?_, subscribe_observer_nodup l o, ?_⟩
  · intro h
    induction h with
    | empty => simp
    | subscribe l o _ ih => exact subscribe_observer_nodup l o ih
  · intro h
    simpa [get_signal_snapshot, copy_observers_eq] using h

/-- Witness for claim C8: the sequence obtained by subscribing `1` then `2`
then `1` again to a fresh subject is duplicate-free, and subscribing `1` to
the concrete duplicate-free sequence `[1, 2]` keeps it duplicate-free. -/
theorem subject_sequence_nodup_witness :
    (subscribe_observer (subscribe_observer (subscribe_observer [] 1) 2) 1).Nodup ∧
    (subscribe_observer [1, 2] 1).Nodup :=
  ⟨(subject_sequence_nodup
      (subscribe_observer (subscribe_observer (subscribe_observer [] 1) 2) 1) 0 0).1
      (ReachableSubs.subscribe _ 1
        (ReachableSubs.subscribe _ 2 (ReachableSubs.subscribe _ 1 ReachableSubs.empty))),
    (subject_sequence_nodup [1, 2] 1 0).2.1 (by decide)⟩

end EasySignals
